import Mathlib

/-!
Verification development for the mtmCalcDbManager_Brite ingestion agents
(index2.js, nseFNO.js, server.js and the unnamed agent scripts).

The agents share one engineering core: a chunked, resumable file tailer
(`readFile`), a numeric coercion layer (`parseValue` /
`parseScientificBigInt`), a record mapper (`mapRow`), a batch publisher
(`publishBatch`) and a poll loop with a reentrancy guard (`startPolling`).
This file gives a shallow embedding of that core, translated from the
JavaScript sources, and proves (or refutes) the testable properties stated
about it.

Strings are modelled as `List Char` (the agents split on the single-byte
characters `'\n'`, `'e'` and the configured delimiter, so a per-character
model is faithful; multi-byte UTF-8 re-assembly is not exercised by any
property considered here).  JavaScript doubles are modelled exactly as
rationals together with an explicit round-to-nearest-even step `float64`.
-/

/-- Strings of the JavaScript sources, modelled character by character. -/
abbrev Str := List Char

/-! ## Character predicates (from the JS semantics of the sources) -/
/-- Whitespace, as tested by `String.prototype.trim`, `parseInt` and
`parseFloat`.  JavaScript's WhiteSpace set also contains `\v`, `\f`, NBSP
and other Unicode spaces, none of which occur in the feed data or in any
input considered by the claims. -/
def jsIsWs (c : Char) : Bool :=
  c == ' ' || c == '\t' || c == '\n' || c == '\r'

/-- Decimal digit test (`0`–`9`). -/
def isDig (c : Char) : Bool :=
  48 ≤ c.toNat && c.toNat ≤ 57

/-- Numeric value of a decimal digit character. -/
def digVal (c : Char) : ℕ := c.toNat - 48

/-- Value of a string of decimal digit characters, most significant first. -/
def digitsValN (s : Str) : ℕ :=
  s.foldl (fun a c => 10 * a + digVal c) 0

/-- `String.prototype.trim`: drop whitespace from both ends. -/
def jsTrim (s : Str) : Str :=
  ((s.dropWhile jsIsWs).reverse.dropWhile jsIsWs).reverse

/-- `String.prototype.toLowerCase` (ASCII range, which is all the feeds use). -/
def jsToLower (s : Str) : Str := s.map Char.toLower

/-! ## Splitting on a separator character

`data.split(sep)` followed by `lines.pop()` is the central line-reassembly
step of `readFile`.  `splitCP` returns exactly that pair: the complete
fragments (everything before the last separator) and the final fragment
(the popped partial line). -/
/-- Split a string at every occurrence of `sep`; return the list of complete
fragments together with the trailing fragment after the last separator.
`splitCP sep s = (l, t)` corresponds to JavaScript
`l = s.split(sep); t = l.pop()`. -/
def splitCP (sep : Char) : Str → List Str × Str
  | [] => ([], [])
  | c :: rest =>
    let p := splitCP sep rest
    if c = sep then ([] :: p.1, p.2)
    else
      match p.1 with
      | [] => ([], c :: p.2)
      | x :: xs => ((c :: x) :: xs, p.2)

/-- JavaScript `s.split(sep)`: all fragments, the trailing one included. -/
def splitAll (sep : Char) (s : Str) : List Str :=
  (splitCP sep s).1 ++ [(splitCP sep s).2]

/-! ## Chunking

`readFile` reads `min(chunkSize, remaining)` bytes per iteration until it
reaches the stat'ed size; `chunksOf c s` is the resulting chunk sequence.
A fuel argument (bounded by the list length) makes the definition
structurally recursive; when `c = 0` the JS loop reads zero bytes and
breaks immediately, producing no chunks. -/
def chunksOfF : ℕ → ℕ → Str → List Str
  | 0, _, _ => []
  | fuel + 1, c, s =>
    if c = 0 ∨ s = [] then []
    else s.take c :: chunksOfF fuel c (s.drop c)

/-- The chunk sequence read by the `while (position < stat.size)` loop. -/
def chunksOf (c : ℕ) (s : Str) : List Str := chunksOfF s.length c s

/-! ## The reader's per-chunk line reassembly

For each chunk the source executes

    const data = partialLine + buffer.slice(0, bytesRead).toString();
    const lines = data.split("\n");
    partialLine = lines.pop();

and then processes `lines`.  `feedChunk` is exactly that step, accumulating
the complete lines of the pass; `chunkPass` runs it over a whole chunked
pass starting from an empty carried fragment. -/
def feedChunk (st : List Str × Str) (k : Str) : List Str × Str :=
  let p := splitCP '\n' (st.2 ++ k)
  (st.1 ++ p.1, p.2)

/-- All complete lines (and the final carried fragment) produced by feeding
the content of `s` through the reader in chunks of size `c`. -/
def chunkPass (c : ℕ) (s : Str) : List Str × Str :=
  (chunksOf c s).foldl feedChunk ([], [])

/-! ## A model of JavaScript numbers

The coercion layer multiplies a `parseFloat`ed mantissa by `Math.pow(10,
exponent)` and rounds.  All of these are IEEE-754 binary64 operations; we
model a double exactly by its rational value and make the rounding step
explicit.  Rationals are represented by a small self-contained fraction
type `Q` kept in lowest terms with a positive denominator, so that all
arithmetic reduces inside the kernel and representational equality
coincides with equality of values. -/
/-- An exact rational: numerator and (positive) denominator in lowest
terms for every value built by the smart constructor `qMk`. -/
structure Q where
  num : ℤ
  den : ℤ
deriving DecidableEq, Repr

/-- Normalising constructor: sign on the numerator, denominator positive,
fraction reduced. -/
def qMk (n d : ℤ) : Q :=
  if d = 0 then ⟨0, 1⟩
  else
    let s : ℤ := if d < 0 then -1 else 1
    let n1 := s * n
    let d1 := s * d
    let g := (Int.gcd n1 d1 : ℤ)
    if g = 0 then ⟨0, 1⟩ else ⟨n1 / g, d1 / g⟩

def qOfInt (n : ℤ) : Q := ⟨n, 1⟩

def qNeg (a : Q) : Q := ⟨-a.num, a.den⟩

def qAbs (a : Q) : Q := if a.num < 0 then qNeg a else a

def qAdd (a b : Q) : Q := qMk (a.num * b.den + b.num * a.den) (a.den * b.den)

def qSub (a b : Q) : Q := qAdd a (qNeg b)

def qMul (a b : Q) : Q := qMk (a.num * b.num) (a.den * b.den)

def qInv (a : Q) : Q := qMk a.den a.num

/-- Strict order on fractions with positive denominators. -/
def qLt (a b : Q) : Bool := a.num * b.den < b.num * a.den

def qLe (a b : Q) : Bool := a.num * b.den ≤ b.num * a.den

def qHalf : Q := ⟨1, 2⟩

/-- Floor of a rational, executable by kernel reduction. -/
def ratFloor (a : Q) : ℤ := a.num.fdiv a.den

/-- Ceiling of a rational. -/
def ratCeil (a : Q) : ℤ := -ratFloor (qNeg a)

/-- Round a rational to the nearest integer, ties to even. -/
def rne (a : Q) : ℤ :=
  let f := ratFloor a
  let r := qSub a (qOfInt f)
  if qLt r qHalf then f
  else if qLt qHalf r then f + 1
  else if f % 2 = 0 then f else f + 1

/-- Two to an integer power, as a rational. -/
def pow2z (k : ℤ) : Q :=
  if 0 ≤ k then qOfInt (2 ^ k.toNat) else ⟨1, 2 ^ (-k).toNat⟩

/-- Base-two logarithm of a natural number (floor), by fuel; the fuel of
2100 covers every magnitude a finite double can take. -/
def log2f : ℕ → ℕ → ℕ
  | 0, _ => 0
  | fuel + 1, n => if n < 2 then 0 else log2f fuel (n / 2) + 1

/-- Floor of the base-two logarithm of a positive rational. -/
def qlog2 (a : Q) : ℤ :=
  if qLe (qOfInt 1) a then (log2f 2100 (ratFloor a).toNat : ℤ)
  else
    -(if (ratCeil (qInv a)).toNat ≤ 1 then 0
      else (log2f 2100 ((ratCeil (qInv a)).toNat - 1) : ℤ) + 1)

/-- Value of the binary64 double nearest to `q` (round to nearest, ties to
even), valid on the normal range; overflow to infinity and subnormal
underflow do not occur at the magnitudes reached by any input considered
in this development. -/
def float64 (a : Q) : Q :=
  if a.num = 0 then qOfInt 0
  else
    let x := qAbs a
    let e := qlog2 x - 52
    let r := qMul (qOfInt (rne (qMul x (pow2z (-e))))) (pow2z e)
    if a.num < 0 then qNeg r else r

/-- JavaScript `Math.round` on a (finite) double value: nearest integer,
halves toward positive infinity. -/
def jsRound (a : Q) : ℤ := ratFloor (qAdd a qHalf)

/-- JavaScript `Math.pow(10, e)` for an integer exponent: the double
nearest to the exact power (correctly rounded, which every implementation
achieves on the exactly representable powers used by the feeds). -/
def jsPow10 (e : ℤ) : Q :=
  float64 (if 0 ≤ e then qOfInt ((10 : ℤ) ^ e.toNat) else qMk 1 ((10 : ℤ) ^ (-e).toNat))

/-! ## JavaScript string-to-number parsers, from the sources' call sites -/
/-- Split an optional leading `+`/`-` sign off a string. -/
def signSplit (t : Str) : ℤ × Str :=
  if t.head? = some '-' then (-1, t.drop 1)
  else if t.head? = some '+' then (1, t.drop 1) else (1, t)

/-- JavaScript `parseInt(s, 10)`: skip leading whitespace, take an
optional sign and the longest leading run of decimal digits, ignoring
everything after it; `none` models `NaN`.  The resulting mathematical
integer is converted to a double by the caller. -/
def jsParseInt (s : Str) : Option ℤ :=
  let t := s.dropWhile jsIsWs
  let p := signSplit t
  let d := p.2.takeWhile isDig
  if d = [] then none else some (p.1 * (digitsValN d : ℤ))

/-- JavaScript `parseFloat(s)` restricted to the decimal forms that reach
it in these sources (optional sign, integer digits, optional fraction,
trailing garbage ignored; the mantissas handed to it by
`parseScientificBigInt` result from splitting on `e` and therefore carry
no exponent of their own).  Returns the exact rational value of the
literal; `none` models `NaN`. -/
def jsParseFloat (s : Str) : Option Q :=
  let t := s.dropWhile jsIsWs
  let p := signSplit t
  let d1 := p.2.takeWhile isDig
  let r1 := p.2.dropWhile isDig
  let d2 := if r1.head? = some '.' then (r1.drop 1).takeWhile isDig else []
  if d1 = [] ∧ d2 = [] then none
  else some (qMk
    (p.1 * ((digitsValN d1 : ℤ) * (10 : ℤ) ^ d2.length + (digitsValN d2 : ℤ)))
    ((10 : ℤ) ^ d2.length))

/-- JavaScript `Number(s)` as applied to the exponent part of a scientific
literal: whitespace-trimmed, the empty string is `0`, an optionally signed
all-digit string is its value; every other form (none of which occurs in
the exponents of the verified inputs) is mapped to `NaN` (`none`). -/
def jsNumberInt (s : Str) : Option ℤ :=
  let t := jsTrim s
  if t = [] then some 0
  else
    let p := signSplit t
    if p.2 ≠ [] ∧ p.2.all isDig then some (p.1 * (digitsValN p.2 : ℤ))
    else none

/-- JavaScript `BigInt(s)` on a string: trimmed; empty is `0n`; an
optionally signed all-digit string is its exact integer; anything else
throws (`none`).  Hexadecimal/octal/binary literal forms are not used by
the feeds and not modelled. -/
def jsBigIntOfString (s : Str) : Option ℤ :=
  let t := jsTrim s
  if t = [] then some 0
  else if t.head? = some '+' then
    (if t.drop 1 ≠ [] ∧ (t.drop 1).all isDig
     then some ((digitsValN (t.drop 1) : ℤ)) else none)
  else if t.head? = some '-' then
    (if t.drop 1 ≠ [] ∧ (t.drop 1).all isDig
     then some (-(digitsValN (t.drop 1) : ℤ)) else none)
  else if t.all isDig then some ((digitsValN t : ℤ))
  else none

/-! ## Decimal rendering (`BigInt.prototype.toString`) -/
/-- Decimal digits of `n`, most significant first, by fuel (covers
`n < 10 ^ 64`, far beyond every value reached here). -/
def natDigitsF : ℕ → ℕ → Str
  | 0, _ => []
  | fuel + 1, n =>
    if n = 0 then [] else natDigitsF fuel (n / 10) ++ [Char.ofNat (48 + n % 10)]

/-- Canonical decimal string of a natural number. -/
def natStr (n : ℕ) : Str := if n = 0 then ['0'] else natDigitsF 64 n

/-- Canonical decimal string of an integer (no exponent, no fraction). -/
def intToStr (n : ℤ) : Str :=
  if n < 0 then '-' :: natStr (-n).toNat else natStr n.toNat

/-! ## The numeric coercion layer

`parseScientificBigInt` and `parseValue`, translated from
src/index2.js lines 120–151 (the identical copies in nseFNO.js and the
unnamed agents share this embedding). -/
/-- Result of `parseScientificBigInt`: the source returns the empty string
for falsy input and a BigInt otherwise; a thrown exception (surfaced to
`parseValue`'s catch) is `none`. -/
def parseScientificBigInt (s : Str) : Option (Str ⊕ ℤ) :=
  if s = [] then some (Sum.inl []) else
  let str := jsTrim s
  if 'e' ∉ str ∧ 'E' ∉ str then (jsBigIntOfString str).map Sum.inr
  else
    let lower := jsToLower str
    let parts := splitAll 'e' lower
    let coeff := parts.headD []
    let ex := (parts.drop 1).headD []
    match jsNumberInt ex, jsParseFloat coeff with
    | some ev, some cq =>
        let multiplier := jsPow10 ev
        let product := float64 (qMul (float64 cq) multiplier)
        some (Sum.inr (jsRound product))
    | _, _ => none

/-- The declared type of a column (`FIELD_TYPES` values). -/
inductive FieldType
  | int
  | float
  | bool
  | bigInt
  | str
deriving DecidableEq, Repr

/-- A JavaScript value as it can appear in an output record. -/
inductive JsValue
  | null
  | nan
  | num (q : Q)
  | bool (b : Bool)
  | str (s : Str)
deriving DecidableEq, Repr

/-- The coercion layer `parseValue(value, type)` of index2.js / nseFNO.js:
empty input is `null`; `int` and `float` parse to a double (`NaN`, not
`null`, when unparseable — `parseInt`/`parseFloat` do not throw); `bool`
compares against lower-cased `"true"` and the literal `"1"`; `BigInt`
renders `parseScientificBigInt`'s result as a decimal string, with a
thrown conversion error caught and turned into `null`. -/
def parseValue (v : Str) (t : FieldType) : JsValue :=
  if v = [] then JsValue.null
  else
    match t with
    | FieldType.int =>
        match jsParseInt v with
        | none => JsValue.nan
        | some n => JsValue.num (float64 (qOfInt n))
    | FieldType.float =>
        match jsParseFloat v with
        | none => JsValue.nan
        | some q => JsValue.num (float64 q)
    | FieldType.bool =>
        JsValue.bool (jsToLower v == "true".toList || v == "1".toList)
    | FieldType.bigInt =>
        match parseScientificBigInt v with
        | none => JsValue.null
        | some (Sum.inl s) => JsValue.str s
        | some (Sum.inr n) => JsValue.str (intToStr n)
    | FieldType.str => JsValue.str v

/-- The coercion layer of src/server.js lines 130–155.  It differs from
index2.js in two ways taken verbatim from the source: empty input returns
the empty string (not `null`), and the `case 'bool':` branch computes
`(value.toLowerCase() === 'true' || value === '1' ? 1 : 0);` WITHOUT a
`return`, so control falls through into `case 'BigInt':` and the value is
coerced through `parseScientificBigInt` instead; an exception thrown there
is caught and yields `null`. -/
def serverParseValue (v : Str) (t : FieldType) : JsValue :=
  if jsTrim v = [] then JsValue.str []
  else
    match t with
    | FieldType.int =>
        match jsParseInt v with
        | none => JsValue.nan
        | some n => JsValue.num (float64 (qOfInt n))
    | FieldType.float =>
        match jsParseFloat v with
        | none => JsValue.nan
        | some q => JsValue.num (float64 q)
    | FieldType.bool =>
        match parseScientificBigInt v with
        | none => JsValue.null
        | some (Sum.inl s) => JsValue.str s
        | some (Sum.inr n) => JsValue.str (intToStr n)
    | FieldType.bigInt =>
        match parseScientificBigInt v with
        | none => JsValue.null
        | some (Sum.inl s) => JsValue.str s
        | some (Sum.inr n) => JsValue.str (intToStr n)
    | FieldType.str => JsValue.str v

/-! ## Rows, records and the record mapper -/
/-- One schema column: source CSV header, output field name, declared
type — one triple of the `HEADER_MAPPING` / `FIELD_TYPES` configuration
tables. -/
structure ColSpec where
  src : Str
  out : Str
  ty : FieldType
deriving DecidableEq, Repr

/-- A parsed CSV row: source header name to raw field text. -/
abbrev Row := List (Str × Str)

/-- An output record: output field name to coerced value. -/
abbrev Record := List (Str × JsValue)

/-- Field lookup in a row (`row[csvHeader]`); `none` is `undefined`. -/
def rowGet (row : Row) (h : Str) : Option Str :=
  (row.find? (fun p => p.1 == h)).map (fun p => p.2)

/-- `mapRow` of index2.js lines 153–161: coerce every schema column
(an absent field behaves like the empty string: both fall into
`parseValue`'s falsy check) and append the generated identifier field.
`randomUUID()` is modelled by a fixed placeholder value; no property
verified here depends on the identifier's content. -/
def mapRow (schema : List ColSpec) (row : Row) : Record :=
  schema.map (fun cs => (cs.out, parseValue ((rowGet row cs.src).getD []) cs.ty))
    ++ [("_uuid".toList, JsValue.str ("_uuid".toList))]

/-- `parseCsvRow` (fast-csv `parseString` with `strictColumnHandling:
true`): split the line on the configured delimiter and pair the fields
with the expected headers; a column-count mismatch rejects the row (the
caller catches and drops it).  Quoting/escaping is not used by the feeds
and not modelled. -/
def parseCsvLine (headers : List Str) (delim : Char) (line : Str) : Option Row :=
  let fields := splitAll delim line
  if fields.length = headers.length then some (headers.zip fields) else none

/-! ## The batch publisher -/
/-- Outcome of one `publishBatch()` call (index2.js lines 171–183):
`.1` is the batch handed to `producer.send` (`none` when nothing was sent,
either because the batch was empty or because the send threw, was caught
and only logged); `.2` is the batch accumulator afterwards.  `ok` says
whether the bus accepted the send. -/
def publishBatch (ok : Bool) (batch : List Record) :
    Option (List Record) × List Record :=
  if batch = [] then (none, batch)
  else if ok then (some batch, []) else (none, [])

/-! ## The chunked read pass (`readFile`, index2.js lines 188–238)

State threaded by the source through its module-level variables. -/
/-- Configuration of one agent instance. -/
structure Config where
  chunkSize : ℕ
  batchSize : ℕ
  delim : Char
  schema : List ColSpec
  sendOk : Bool
deriving Repr

/-- The mutable state of one agent: the in-memory read position
(`offset`), the offset last written by `saveOffset` (`persisted`), the
carried partial line, the `headerParsed` flag, the batch accumulator, and
the log of batches accepted by the bus (`published`). -/
structure RState where
  offset : ℕ
  persisted : ℕ
  partialLine : Str
  headerParsed : Bool
  batch : List Record
  published : List (List Record)
deriving Repr

/-- Run one `publishBatch()` against the state's accumulator. -/
def doPublish (ok : Bool) (st : RState) : RState :=
  let r := publishBatch ok st.batch
  { st with batch := r.2, published := st.published ++ r.1.toList }

/-- The per-line body of `readFile`'s inner `for` loop: skip the header
line once, parse the row (a failure is logged and drops the line), map it,
push it onto the batch and flush when the batch bound is reached. -/
def processLine (cfg : Config) (st : RState) (line : Str) : RState :=
  if ¬ st.headerParsed ∧ ("Membr id".toList).isPrefixOf line then
    { st with headerParsed := true }
  else
    match parseCsvLine (cfg.schema.map (fun cs => cs.src)) cfg.delim line with
    | none => st
    | some row =>
      let b := st.batch ++ [mapRow cfg.schema row]
      if cfg.batchSize ≤ b.length then doPublish cfg.sendOk { st with batch := b }
      else { st with batch := b }

/-- One iteration of the `while (position < stat.size)` loop on one chunk:
stitch the carried fragment, split on newlines, keep the popped fragment,
process the complete lines, then advance `position` and `offset` by the
bytes read — note the source advances `offset` past the bytes of the
retained fragment as well. -/
def processChunk (cfg : Config) (st : RState) (k : Str) : RState :=
  let p := splitCP '\n' (st.partialLine ++ k)
  let st2 := p.1.foldl (processLine cfg) { st with partialLine := p.2 }
  { st2 with offset := st2.offset + k.length }

/-- One full `readFile()` pass over a file whose current content is
`content`: return unchanged when the size equals the offset; otherwise
read chunk by chunk from `offset`, flush the final batch, and persist the
in-memory offset (`saveOffset(offset)`).  I/O is assumed to deliver the
requested bytes; read and stat failures are outside the modelled
behaviour. -/
def readFile (cfg : Config) (content : Str) (st : RState) : RState :=
  if content.length = st.offset then st
  else
    let st1 := (chunksOf cfg.chunkSize (content.drop st.offset)).foldl
      (processChunk cfg) st
    let st2 := doPublish cfg.sendOk st1
    { st2 with persisted := st2.offset }

/-! ## The poll loop's reentrancy guard (`startPolling`, lines 240–254)

The interval callback reads `isProcessing`; a tick that observes `true`
returns immediately (the skipped tick is not queued anywhere), otherwise
it sets the flag, starts an asynchronous `readFile` pass, and the pass's
`finally` clears the flag when it completes.  We model the callback entry
(`tick`) and the pass completion (`passEnd`) as events acting on the flag
plus a count of passes currently running. -/
structure PollState where
  processing : Bool
  running : ℕ
deriving DecidableEq, Repr

inductive PollEv
  | tick
  | passEnd
deriving DecidableEq, Repr

/-- Effect of one event.  A `tick` seeing `isProcessing` is a no-op; a
`tick` seeing the flag clear sets it and starts a pass.  `passEnd` is the
`finally` block of a running pass (it can only ever fire with a pass
running; the guard on `running = 0` merely totalises the function). -/
def pollStep (s : PollState) : PollEv → PollState
  | PollEv.tick =>
      if s.processing then s else { processing := true, running := s.running + 1 }
  | PollEv.passEnd =>
      if s.running = 0 then s else { processing := false, running := s.running - 1 }

/-- Initial state: flag clear, nothing running. -/
def pollInit : PollState := { processing := false, running := 0 }

/-- State after a sequence of events. -/
def pollRun (evs : List PollEv) : PollState := evs.foldl pollStep pollInit

/-! ## Claim fixtures: concrete agent configurations for evaluation -/
/-- The three-integer-column schema `[A→a:int, B→b:int, C→c:int]` of the
specification's end-to-end scenarios, comma-delimited. -/
def cfgABC : Config :=
  { chunkSize := 64, batchSize := 1000, delim := ',',
    schema := [⟨"A".toList, "a".toList, FieldType.int⟩,
               ⟨"B".toList, "b".toList, FieldType.int⟩,
               ⟨"C".toList, "c".toList, FieldType.int⟩],
    sendOk := true }

/-- A one-string-column schema, comma-delimited. -/
def cfgOne : Config :=
  { chunkSize := 64, batchSize := 1000, delim := ',',
    schema := [⟨"A".toList, "a".toList, FieldType.str⟩],
    sendOk := true }

/-- Fresh agent state: offset 0, nothing carried, nothing published. -/
def rstInit : RState :=
  { offset := 0, persisted := 0, partialLine := [], headerParsed := false,
    batch := [], published := [] }

/-- Agent state whose stored offset (10) exceeds the current file size:
the tailed file has been truncated or replaced. -/
def rstTrunc : RState :=
  { offset := 10, persisted := 10, partialLine := [], headerParsed := true,
    batch := [], published := [] }

/-! ## Theorems -/

theorem splitCP_cons_sep (sep : Char) (t : Str) :
    splitCP sep (sep :: t) = ([] :: (splitCP sep t).1, (splitCP sep t).2) := by
  simp [splitCP]

theorem splitCP_cons_ne_nil (sep c : Char) (t : Str) (h : ¬ c = sep)
    (hp : (splitCP sep t).1 = []) :
    splitCP sep (c :: t) = ([], c :: (splitCP sep t).2) := by
  simp [splitCP, h, hp]

theorem splitCP_cons_ne_cons (sep c : Char) (t : Str) (x : Str) (xs : List Str)
    (h : ¬ c = sep) (hp : (splitCP sep t).1 = x :: xs) :
    splitCP sep (c :: t) = ((c :: x) :: xs, (splitCP sep t).2) := by
  simp [splitCP, h, hp]

theorem splitCP_snd_not_mem (sep : Char) :
    ∀ s : Str, sep ∉ (splitCP sep s).2 := by
  intro s
  induction s with
  | nil => simp [splitCP]
  | cons c rest ih =>
    by_cases h : c = sep
    · simpa [splitCP, h] using ih
    · rcases hp : (splitCP sep rest).1 with _ | ⟨x, xs⟩
      · simp only [splitCP, if_neg h, hp]
        intro hmem
        rcases List.mem_cons.mp hmem with h1 | h2
        · exact h h1.symm
        · exact ih h2
      · simpa [splitCP, if_neg h, hp] using ih

theorem splitCP_of_not_mem (sep : Char) :
    ∀ s : Str, sep ∉ s → splitCP sep s = ([], s) := by
  intro s
  induction s with
  | nil => simp [splitCP]
  | cons c rest ih =>
    intro hmem
    have hc : ¬ c = sep := fun h => hmem (h ▸ List.mem_cons_self c rest)
    have hrest : sep ∉ rest := fun h => hmem (List.mem_cons_of_mem c h)
    simp [splitCP, hc, ih hrest]

/-- Appending input splits compositionally: the complete fragments of
`a ++ b` are those of `a` followed by those of `(tail of a) ++ b`.  This is
the algebraic heart of the chunk-boundary correctness of the reader. -/
theorem splitCP_append (sep : Char) :
    ∀ a b : Str,
      splitCP sep (a ++ b) =
        ((splitCP sep a).1 ++ (splitCP sep ((splitCP sep a).2 ++ b)).1,
         (splitCP sep ((splitCP sep a).2 ++ b)).2) := by
  intro a
  induction a with
  | nil => intro b; simp [splitCP]
  | cons c a ih =>
    intro b
    rw [List.cons_append]
    by_cases h : c = sep
    · subst h
      rw [splitCP_cons_sep, splitCP_cons_sep, ih b]
      simp
    · rcases hp : (splitCP sep a).1 with _ | ⟨y, ys⟩
      · have ha := splitCP_cons_ne_nil sep c a h hp
        have h1 : (splitCP sep (a ++ b)).1 =
            (splitCP sep ((splitCP sep a).2 ++ b)).1 := by
          rw [ih b, hp, List.nil_append]
        have h2 : (splitCP sep (a ++ b)).2 =
            (splitCP sep ((splitCP sep a).2 ++ b)).2 := by
          rw [ih b]
        rw [ha]
        simp only [List.nil_append, List.cons_append]
        rcases hq : (splitCP sep ((splitCP sep a).2 ++ b)).1 with _ | ⟨x, xs⟩
        · rw [splitCP_cons_ne_nil sep c (a ++ b) h (h1.trans hq),
            splitCP_cons_ne_nil sep c ((splitCP sep a).2 ++ b) h hq, h2]
        · rw [splitCP_cons_ne_cons sep c (a ++ b) x xs h (h1.trans hq),
            splitCP_cons_ne_cons sep c ((splitCP sep a).2 ++ b) x xs h hq, h2]
      · have ha := splitCP_cons_ne_cons sep c a y ys h hp
        have h1 : (splitCP sep (a ++ b)).1 =
            y :: (ys ++ (splitCP sep ((splitCP sep a).2 ++ b)).1) := by
          rw [ih b, hp, List.cons_append]
        have h2 : (splitCP sep (a ++ b)).2 =
            (splitCP sep ((splitCP sep a).2 ++ b)).2 := by
          rw [ih b]
        rw [ha, splitCP_cons_ne_cons sep c (a ++ b) _ _ h h1, h2]
        simp [List.cons_append]

theorem chunksOfF_flatten (c : ℕ) (hc : 0 < c) :
    ∀ fuel : ℕ, ∀ s : Str, s.length ≤ fuel → (chunksOfF fuel c s).flatten = s := by
  intro fuel
  induction fuel with
  | zero =>
    intro s hs
    have : s = [] := List.eq_nil_of_length_eq_zero (Nat.le_zero.mp hs)
    simp [this, chunksOfF]
  | succ n ih =>
    intro s hs
    rcases s with _ | ⟨x, xs⟩
    · simp [chunksOfF]
    · have hcne : ¬ c = 0 := Nat.pos_iff_ne_zero.mp hc
      simp only [chunksOfF, hcne, false_or, reduceCtorEq, if_false,
        List.flatten_cons]
      rw [ih ((x :: xs).drop c) ?_]
      · exact List.take_append_drop c (x :: xs)
      · calc ((x :: xs).drop c).length = (x :: xs).length - c :=
              List.length_drop c (x :: xs)
          _ ≤ (x :: xs).length - 1 := Nat.sub_le_sub_left hc _
          _ ≤ n := by
              have := hs
              simp only [List.length_cons] at this
              omega

theorem chunksOf_flatten (c : ℕ) (hc : 0 < c) (s : Str) :
    (chunksOf c s).flatten = s :=
  chunksOfF_flatten c hc s.length s le_rfl

theorem feedChunk_fold (sep : Char) :
    ∀ (ks : List Str) (acc : List Str) (t : Str), sep ∉ t →
      ks.foldl (fun st k => ((st.1 ++ (splitCP sep (st.2 ++ k)).1,
          (splitCP sep (st.2 ++ k)).2) : List Str × Str)) (acc, t) =
        (acc ++ (splitCP sep (t ++ ks.flatten)).1,
         (splitCP sep (t ++ ks.flatten)).2) := by
  intro ks
  induction ks with
  | nil =>
    intro acc t ht
    simp [splitCP_of_not_mem sep t ht]
  | cons k ks ih =>
    intro acc t ht
    simp only [List.foldl_cons]
    rw [ih (acc ++ (splitCP sep (t ++ k)).1) (splitCP sep (t ++ k)).2
        (splitCP_snd_not_mem sep (t ++ k))]
    have happ : splitCP sep (t ++ k ++ ks.flatten) =
        ((splitCP sep (t ++ k)).1 ++
          (splitCP sep ((splitCP sep (t ++ k)).2 ++ ks.flatten)).1,
         (splitCP sep ((splitCP sep (t ++ k)).2 ++ ks.flatten)).2) :=
      splitCP_append sep (t ++ k) ks.flatten
    simp only [List.flatten_cons, ← List.append_assoc, happ]

theorem chunkPass_eq (c : ℕ) (hc : 0 < c) (s : Str) :
    chunkPass c s = splitCP '\n' s := by
  have h := feedChunk_fold '\n' (chunksOf c s) [] [] (by simp)
  have h2 : chunkPass c s =
      (([] : List Str) ++ (splitCP '\n' ([] ++ (chunksOf c s).flatten)).1,
       (splitCP '\n' ([] ++ (chunksOf c s).flatten)).2) := by
    simpa [chunkPass, feedChunk] using h
  rw [h2, chunksOf_flatten c hc s]
  simp

/-! ## Supporting lemmas for the claim theorems -/
theorem dropWhile_eq_self_of_all {p : Char → Bool} :
    ∀ s : Str, (∀ c ∈ s, p c = false) → s.dropWhile p = s := by
  intro s h
  cases s with
  | nil => rfl
  | cons c t =>
    have := h c (List.mem_cons_self c t)
    simp [List.dropWhile, this]

theorem jsTrim_eq_self_of_no_ws (s : Str) (h : ∀ c ∈ s, jsIsWs c = false) :
    jsTrim s = s := by
  unfold jsTrim
  rw [dropWhile_eq_self_of_all s h]
  rw [dropWhile_eq_self_of_all s.reverse (fun c hc => h c (List.mem_reverse.mp hc))]
  exact List.reverse_reverse s

theorem takeWhile_append_all {p : Char → Bool} :
    ∀ ds rest : Str, (∀ c ∈ ds, p c = true) →
      List.takeWhile p (ds ++ rest) = ds ++ List.takeWhile p rest := by
  intro ds
  induction ds with
  | nil => intro rest _; simp
  | cons c t ih =>
    intro rest h
    have hc := h c (List.mem_cons_self c t)
    simp only [List.cons_append, List.takeWhile_cons, hc, if_true]
    rw [ih rest (fun x hx => h x (List.mem_cons_of_mem c hx))]

theorem dig_not_ws (c : Char) (h : isDig c = true) : jsIsWs c = false := by
  by_contra hw
  have hw2 : jsIsWs c = true := by
    cases hvw : jsIsWs c
    · exact absurd hvw hw
    · rfl
  simp only [jsIsWs, Bool.or_eq_true, beq_iff_eq] at hw2
  rcases hw2 with ((h1 | h1) | h1) | h1 <;> subst h1 <;> exact absurd h (by decide)

theorem dig_ne_char (c d : Char) (h : isDig c = true) (hd : isDig d = false) :
    ¬ c = d := by
  intro he
  subst he
  rw [h] at hd
  exact absurd hd (by decide)

theorem jsBigIntOfString_digits (ds : Str) (hne : ds ≠ [])
    (hd : ∀ c ∈ ds, isDig c = true) :
    jsBigIntOfString ds = some ((digitsValN ds : ℤ)) := by
  have htrim : jsTrim ds = ds :=
    jsTrim_eq_self_of_no_ws ds (fun c hc => dig_not_ws c (hd c hc))
  rcases ds with _ | ⟨c, t⟩
  · exact absurd rfl hne
  · have hc := hd c (List.mem_cons_self c t)
    have hplus : ¬ ((c :: t).head? = some '+') := by
      simp only [List.head?_cons, Option.some.injEq]
      exact dig_ne_char c '+' hc (by decide)
    have hminus : ¬ ((c :: t).head? = some '-') := by
      simp only [List.head?_cons, Option.some.injEq]
      exact dig_ne_char c '-' hc (by decide)
    have hall : (c :: t).all isDig = true := List.all_eq_true.mpr hd
    unfold jsBigIntOfString
    rw [htrim, if_neg hne, if_neg hplus, if_neg hminus, if_pos hall]

theorem jsParseInt_digits_leading (ds rest : Str) (hne : ds ≠ [])
    (hd : ∀ c ∈ ds, isDig c = true)
    (hr : ∀ c, rest.head? = some c → isDig c = false) :
    jsParseInt (ds ++ rest) = some ((digitsValN ds : ℤ)) := by
  rcases ds with _ | ⟨c, t⟩
  · exact absurd rfl hne
  · have hc := hd c (List.mem_cons_self c t)
    have hws : jsIsWs c = false := dig_not_ws c hc
    have hdrop : (c :: t ++ rest).dropWhile jsIsWs = c :: (t ++ rest) := by
      simp [List.dropWhile, hws]
    have hplus : ¬ ((c :: (t ++ rest)).head? = some '+') := by
      simp only [List.head?_cons, Option.some.injEq]
      exact dig_ne_char c '+' hc (by decide)
    have hminus : ¬ ((c :: (t ++ rest)).head? = some '-') := by
      simp only [List.head?_cons, Option.some.injEq]
      exact dig_ne_char c '-' hc (by decide)
    have htw : List.takeWhile isDig (rest) = [] := by
      cases rest with
      | nil => rfl
      | cons r rs =>
        have := hr r rfl
        simp [List.takeWhile, this]
    have htake : List.takeWhile isDig (c :: t ++ rest) = c :: t := by
      have h2 := takeWhile_append_all (c :: t) rest hd
      simp only [List.cons_append] at h2
      rw [htw, List.append_nil] at h2
      exact h2
    unfold jsParseInt signSplit
    simp only [List.cons_append] at hdrop htake ⊢
    rw [hdrop, if_neg hminus, if_neg hplus]
    simp only []
    rw [htake]
    have : ¬ (c :: t = ([] : Str)) := by simp
    rw [if_neg this]
    simp

theorem pollStep_inv (s : PollState)
    (h : s.running = if s.processing then 1 else 0) (e : PollEv) :
    (pollStep s e).running = if (pollStep s e).processing then 1 else 0 := by
  cases e <;> by_cases hp : s.processing <;> simp [pollStep, hp, h] at h ⊢

theorem pollFold_inv (evs : List PollEv) :
    ∀ s : PollState, s.running = (if s.processing then 1 else 0) →
      (evs.foldl pollStep s).running =
        if (evs.foldl pollStep s).processing then 1 else 0 := by
  induction evs with
  | nil => intro s h; simpa using h
  | cons e evs ih =>
    intro s h
    simp only [List.foldl_cons]
    exact ih (pollStep s e) (pollStep_inv s h e)

/-! ## C1 -/
/-- C1: the spec claims that the persisted offset always equals the byte
position just after the last successfully mapped line's terminator and
never covers bytes of an unmapped line; for content `"1,2,3\n4,5"` it
says one record is mapped and the offset stops at 6 (after `"1,2,3\n"`).
The code violates this: `readFile` advances `offset = position` past ALL
bytes read, including the retained `"4,5"` fragment, and persists 9.  One
record is indeed mapped and the fragment survives, but only in the
in-memory `partialLine`; a restart from the persisted offset 9 would drop
it.  This theorem evaluates the embedded `readFile` at the spec's own
scenario and exhibits the divergence. -/
theorem C1_readFile_offset_covers_partial_fragment :
    ((readFile cfgABC ("1,2,3\n4,5".toList) rstInit).published.map
        List.length).sum = 1 ∧
    (readFile cfgABC ("1,2,3\n4,5".toList) rstInit).partialLine = "4,5".toList ∧
    (readFile cfgABC ("1,2,3\n4,5".toList) rstInit).persisted = 9 ∧
    (readFile cfgABC ("1,2,3\n4,5".toList) rstInit).persisted ≠
      ("1,2,3\n".toList).length := by
  decide

/-! ## C2 -/
/-- C2 counterexample: with stored offset 10 and a (shorter, replaced)
file `"x\ny\n"`, the claim says `readFile` performs a fresh read from
offset 0 of the new content.  In fact the pass reads nothing — the loop
condition `position < stat.size` is immediately false — re-persists the
stale offset 10, and produces no records, although a fresh read of the
same content from offset 0 yields two records. -/
theorem C2_truncation_no_fresh_read_counterexample :
    (readFile cfgOne ("x\ny\n".toList) rstTrunc).persisted = 10 ∧
    (readFile cfgOne ("x\ny\n".toList) rstTrunc).published = [] ∧
    (readFile cfgOne ("x\ny\n".toList) rstTrunc).offset ≠ 0 ∧
    ((readFile cfgOne ("x\ny\n".toList) rstInit).published.map
        List.length).sum = 2 := by
  decide

/-- C2 (amended): when the current file size is strictly smaller than the
stored offset, `readFile` does not treat it as a file-identity change:
the pass is a no-op that reads nothing, leaves the offset and the carried
fragment unchanged, re-persists the stale offset, and merely flushes any
leftover batch; there is no fresh read from offset 0 and no anomaly
handling — but it also does not crash. -/
theorem C2_truncation_pass_is_noop (cfg : Config) (content : Str)
    (st : RState) (h : content.length < st.offset) :
    (readFile cfg content st).offset = st.offset ∧
    (readFile cfg content st).persisted = st.offset ∧
    (readFile cfg content st).partialLine = st.partialLine ∧
    (readFile cfg content st).batch = (publishBatch cfg.sendOk st.batch).2 ∧
    (readFile cfg content st).published =
      st.published ++ (publishBatch cfg.sendOk st.batch).1.toList := by
  have hne : ¬ content.length = st.offset := Nat.ne_of_lt h
  have hdrop : content.drop st.offset = [] :=
    List.drop_eq_nil_of_le (Nat.le_of_lt h)
  simp [readFile, hne, hdrop, chunksOf, chunksOfF, doPublish]

/-- C2 witness: the amended no-op behaviour at the concrete truncation
scenario. -/
theorem C2_truncation_pass_is_noop_witness :
    ("x\ny\n".toList).length < rstTrunc.offset ∧
    (readFile cfgOne ("x\ny\n".toList) rstTrunc).persisted = rstTrunc.offset :=
  ⟨by decide,
   (C2_truncation_pass_is_noop cfgOne ("x\ny\n".toList) rstTrunc (by decide)).2.1⟩

/-! ## C3 -/
/-- C3: for every file content and every positive chunk size, the complete
lines emitted by the chunked read loop (carried fragment prepended to each
chunk, split on the newline byte, final fragment retained) equal the
complete lines of splitting the whole content at once — no complete line
is lost, duplicated or reordered at chunk boundaries, including
boundaries on a line ending or lines exactly the chunk size. -/
theorem C3_chunked_lines_eq_whole_split (c : ℕ) (s : Str) (hc : 0 < c) :
    (chunkPass c s).1 = (splitAll '\n' s).dropLast := by
  rw [chunkPass_eq c hc s, splitAll]
  exact (List.dropLast_concat).symm

/-- C3 witness: chunk size 2 over `"ab\ncd\ne"` (boundaries falling inside
lines and on the terminator). -/
theorem C3_chunked_lines_eq_whole_split_witness :
    0 < 2 ∧ (chunkPass 2 ("ab\ncd\ne".toList)).1 =
      (splitAll '\n' ("ab\ncd\ne".toList)).dropLast :=
  ⟨by decide, C3_chunked_lines_eq_whole_split 2 ("ab\ncd\ne".toList) (by decide)⟩

/-! ## C4 -/
/-- C4: coercion to the arbitrary-precision type yields the exact decimal
strings for the representative inputs: `"1.23E+5" ↦ "123000"`,
`"5e3" ↦ "5000"`, `"100" ↦ "100"`, `"0" ↦ "0"`, via split-on-e, integer
exponent parse, `round(mantissa * 10^exponent)` and canonical decimal
rendering (no exponent, no trailing `.0`). -/
theorem C4_scientific_roundtrip_representatives :
    parseValue ("1.23E+5".toList) FieldType.bigInt =
      JsValue.str ("123000".toList) ∧
    parseValue ("5e3".toList) FieldType.bigInt = JsValue.str ("5000".toList) ∧
    parseValue ("100".toList) FieldType.bigInt = JsValue.str ("100".toList) ∧
    parseValue ("0".toList) FieldType.bigInt = JsValue.str ("0".toList) := by
  decide

/-! ## C5 -/
/-- C5 counterexample: the claim says every non-empty non-numeric input at
type int yields `null` and that no non-null non-integer value such as NaN
is placed in the record.  In fact `parseInt` does not throw on `"abc"` —
it returns `NaN`, which `parseValue` passes through into the record. -/
theorem C5_int_nonnumeric_nan_counterexample :
    parseValue ("abc".toList) FieldType.int = JsValue.nan ∧
    JsValue.nan ≠ JsValue.null := by
  decide

/-- C5 (amended): for type int every non-empty input on which the decimal
parse finds no leading digit yields `NaN`, not `null`: the failure is
swallowed (no exception propagates), but the NaN is placed in the output
record as-is and becomes `null` only later, at JSON serialization of the
published message. -/
theorem C5_int_nonnumeric_yields_nan (v : Str) (hv : v ≠ [])
    (hp : jsParseInt v = none) :
    parseValue v FieldType.int = JsValue.nan := by
  unfold parseValue
  rw [if_neg hv, hp]

/-- C5 witness: the amended behaviour at input `"abc"`. -/
theorem C5_int_nonnumeric_yields_nan_witness :
    ("abc".toList ≠ []) ∧ jsParseInt ("abc".toList) = none ∧
    parseValue ("abc".toList) FieldType.int = JsValue.nan :=
  ⟨by decide, by decide,
   C5_int_nonnumeric_yields_nan ("abc".toList) (by decide) (by decide)⟩

/-! ## C6 -/
/-- C6: the claim (and spec section 4.1) state that boolean coercion of a
non-empty value returns exactly the comparison against case-insensitive
`"true"` / literal `"1"`, never `null` and never another type's value.
index2.js implements this, but server.js's `case 'bool':` computes the
boolean WITHOUT a `return` and falls through into the BigInt case: input
`"true"` ends as `null` (BigInt coercion of `"tru"`/`""` throws and is
caught) and input `"1"` ends as the STRING `"1"` from the BigInt path.
Spec section 9 itself flags this as an upstream defect, so the code, not
the claim, is wrong.  This theorem evaluates both embeddings at the
failing inputs. -/
theorem C6_server_bool_falls_through_eval :
    serverParseValue ("true".toList) FieldType.bool = JsValue.null ∧
    serverParseValue ("1".toList) FieldType.bool = JsValue.str ("1".toList) ∧
    parseValue ("true".toList) FieldType.bool = JsValue.bool true ∧
    parseValue ("no".toList) FieldType.bool = JsValue.bool false := by
  decide

/-! ## C7 -/
/-- C7: after every `publishBatch` call the batch accumulator is empty,
whether the send succeeded or failed, and on failure the in-flight batch
is dropped — nothing is handed to the bus, nothing is retried or
requeued (the function performs at most one send attempt and clears the
accumulator unconditionally); processing continues because the failure is
caught and only logged. -/
theorem C7_publishBatch_drops_and_clears (ok : Bool) (batch : List Record) :
    (publishBatch ok batch).2 = [] ∧ (publishBatch false batch).1 = none := by
  constructor
  · by_cases hb : batch = []
    · simp [publishBatch, hb]
    · cases ok <;> simp [publishBatch, hb]
  · by_cases hb : batch = [] <;> simp [publishBatch, hb]

/-! ## C8 -/
/-- C8: the `isProcessing` check-and-skip guard gives mutual exclusion:
along every sequence of poll-tick and pass-completion events, at most one
`readFile` pass is ever running, and a tick that fires while a pass is
running leaves the state completely unchanged — skipped entirely, never
queued. -/
theorem C8_poll_tick_mutual_exclusion (evs : List PollEv) (r : ℕ) :
    (pollRun evs).running ≤ 1 ∧
    pollStep { processing := true, running := r } PollEv.tick =
      { processing := true, running := r } := by
  constructor
  · have h := pollFold_inv evs pollInit (by simp [pollInit])
    simp only [pollRun] at *
    rw [h]
    split <;> simp
  · simp [pollStep]

/-! ## C9 -/
/-- C9: `parseValue` at type int does not reject trailing non-numeric
characters: for every non-empty decimal-digit prefix followed by a
non-digit remainder, the result equals the result on the prefix alone
(`parseInt` silently discards the garbage) and is a number, never null. -/
theorem C9_int_trailing_garbage_discarded (ds rest : Str) (hne : ds ≠ [])
    (hd : ∀ c ∈ ds, isDig c = true)
    (hr : ∀ c, rest.head? = some c → isDig c = false) :
    parseValue (ds ++ rest) FieldType.int = parseValue ds FieldType.int ∧
    parseValue ds FieldType.int ≠ JsValue.null := by
  have h1 : jsParseInt (ds ++ rest) = some ((digitsValN ds : ℤ)) :=
    jsParseInt_digits_leading ds rest hne hd hr
  have h2 : jsParseInt ds = some ((digitsValN ds : ℤ)) := by
    have h3 := jsParseInt_digits_leading ds [] hne hd
      (by intro c hc; simp at hc)
    simpa using h3
  have hne2 : ¬ (ds ++ rest = ([] : Str)) := by
    intro h
    exact hne (List.append_eq_nil.mp h).1
  unfold parseValue
  rw [if_neg hne2, if_neg hne, h1, h2]
  simp

/-- C9 witness: `"12abc"` parses to the number 12, not null. -/
theorem C9_int_trailing_garbage_discarded_witness :
    ("12".toList ≠ []) ∧
    parseValue ("12".toList ++ "abc".toList) FieldType.int =
      JsValue.num (qOfInt 12) := by
  refine ⟨by decide, ?_⟩
  have hr : ∀ c, ("abc".toList).head? = some c → isDig c = false := by
    intro c hc
    have hac : 'a' = c := Option.some.inj hc
    rw [← hac]
    decide
  rw [(C9_int_trailing_garbage_discarded ("12".toList) ("abc".toList)
    (by decide) (by decide) hr).1]
  decide

/-! ## C10 -/
theorem parseScientificBigInt_plain (s : Str) (hne : s ≠ [])
    (hplain : 'e' ∉ jsTrim s ∧ 'E' ∉ jsTrim s) :
    parseScientificBigInt s = (jsBigIntOfString (jsTrim s)).map Sum.inr := by
  unfold parseScientificBigInt
  rw [if_neg hne]
  simp only [if_pos hplain]

/-- C10: the scientific path of `parseScientificBigInt` goes through a
64-bit float, so it is exact only while the mantissa is representable:
`"1.2345678901234567891e19"` (20 significant digits) coerces to
12345678901234567168, not to the mathematically exact
12345678901234567891 — whereas every plain exponent-free digit string of
any length is converted exactly by the arbitrary-precision constructor. -/
theorem C10_scientific_double_rounding_vs_plain_exact :
    (parseScientificBigInt ("1.2345678901234567891e19".toList) =
        some (Sum.inr 12345678901234567168) ∧
      (12345678901234567168 : ℤ) ≠ 12345678901234567891) ∧
    (∀ ds : Str, ds ≠ [] → (∀ c ∈ ds, isDig c = true) →
      parseScientificBigInt ds = some (Sum.inr ((digitsValN ds : ℤ)))) := by
  constructor
  · exact ⟨by decide, by decide⟩
  · intro ds hne hd
    have htrim : jsTrim ds = ds :=
      jsTrim_eq_self_of_no_ws ds (fun c hc => dig_not_ws c (hd c hc))
    have he : ('e' ∉ jsTrim ds) ∧ ('E' ∉ jsTrim ds) := by
      rw [htrim]
      constructor <;> intro hmem <;> exact absurd (hd _ hmem) (by decide)
    rw [parseScientificBigInt_plain ds hne he, htrim,
      jsBigIntOfString_digits ds hne hd]
    rfl

/-- C10 witness: the exact plain-integer path at the digit string
`"123"`. -/
theorem C10_scientific_double_rounding_vs_plain_exact_witness :
    ("123".toList ≠ []) ∧
    parseScientificBigInt ("123".toList) =
      some (Sum.inr ((digitsValN ("123".toList) : ℤ))) :=
  ⟨by decide,
   C10_scientific_double_rounding_vs_plain_exact.2 ("123".toList)
     (by decide) (by decide)⟩
